import Mathlib

/-!
Verification of the kos-tests actuator test engine.

This file gives a shallow embedding, in Lean 4, of the core logic of the
repository: the time-series test-data logger (`kos_tests/actuator/logger.py`),
the trajectory computations of the piecewise, triangle and sine tests
(`kos_tests/actuator/piecewise.py`, `kos_tests/waveforms/triangle.py`,
`kos_tests/waveforms/sine.py`), the JSON save/load round trip, and the
control-loop orchestration (tick structure, interruption behaviour).

Numeric values carried by the logger and the piecewise/triangle trajectory
arithmetic are modelled over `ℚ`; the sine trajectory is modelled over `ℝ`
because it uses the transcendental functions `sin`/`cos`.  Fallible Python
code (division by zero, list indexing, `int()` parsing) is modelled with
`Option`.
-/

namespace KosTests

/-- Embedding of `MotorData` (`logger.py`): the per-motor record of commanded
and observed series.  `commanded_velocities` is `none` exactly when the Python
field is `None`. -/
structure MotorData where
  motor_id : Int
  commanded_positions : List ℚ := []
  actual_positions : List ℚ := []
  commanded_velocities : Option (List ℚ) := none
  actual_velocities : List ℚ := []
  deriving DecidableEq, Repr

/-- Embedding of `TestData` (`logger.py`).  The Python `dict[int, MotorData]`
is modelled as an insertion-ordered association list, which is how a Python
dict behaves under iteration. -/
structure TestData where
  time_points : List ℚ := []
  motors : List (Int × MotorData) := []
  send_velocity : Bool := false
  deriving DecidableEq, Repr

/-- Embedding of `TestData.add_time_point`. -/
def TestData.add_time_point (td : TestData) (t : ℚ) : TestData :=
  { td with time_points := td.time_points ++ [t] }

/-- The fresh `MotorData` built by `TestData.add_motor`:
`MotorData(motor_id=..., commanded_velocities=[] if self.send_velocity else None)`. -/
def freshMotor (motor_id : Int) (sv : Bool) : MotorData :=
  { motor_id := motor_id
    commanded_positions := []
    actual_positions := []
    commanded_velocities := if sv then some [] else none
    actual_velocities := [] }

/-- Embedding of `TestData.add_motor`: registers the motor only if the id is
not already a key of the dict. -/
def TestData.add_motor (td : TestData) (motor_id : Int) : TestData :=
  if td.motors.any (fun e => e.1 = motor_id) then td
  else { td with motors := td.motors ++ [(motor_id, freshMotor motor_id td.send_velocity)] }

/-- The mutation `TestData.log_command` performs on the selected motor:
always append the position; append the velocity only when both the velocity
argument and the motor's `commanded_velocities` list are present. -/
def MotorData.applyCommand (m : MotorData) (position : ℚ) (velocity : Option ℚ) : MotorData :=
  { m with
    commanded_positions := m.commanded_positions ++ [position]
    commanded_velocities :=
      match velocity, m.commanded_velocities with
      | some v, some l => some (l ++ [v])
      | _, cv => cv }

/-- Embedding of `TestData.log_command`. -/
def TestData.log_command (td : TestData) (motor_id : Int) (position : ℚ)
    (velocity : Option ℚ) : TestData :=
  let td := td.add_motor motor_id
  { td with
    motors := td.motors.map fun e =>
      if e.1 = motor_id then (e.1, e.2.applyCommand position velocity) else e }

/-- The mutation `TestData.log_state` performs on the selected motor: append
both observed values unconditionally. -/
def MotorData.applyState (m : MotorData) (position velocity : ℚ) : MotorData :=
  { m with
    actual_positions := m.actual_positions ++ [position]
    actual_velocities := m.actual_velocities ++ [velocity] }

/-- Embedding of `TestData.log_state`. -/
def TestData.log_state (td : TestData) (motor_id : Int) (position velocity : ℚ) : TestData :=
  let td := td.add_motor motor_id
  { td with
    motors := td.motors.map fun e =>
      if e.1 = motor_id then (e.1, e.2.applyState position velocity) else e }

/-- The error strings `TestData.validate_data` emits for one motor, in source
order: commanded positions, actual positions, commanded velocities (only when
that series is present), actual velocities. -/
def motorErrors (expected : Nat) (motor_id : Int) (m : MotorData) : List String :=
  (if m.commanded_positions.length ≠ expected then
    let actual := m.commanded_positions.length
    [s!"Motor {motor_id}: commanded positions length mismatch ({actual} != {expected})"]
  else []) ++
  (if m.actual_positions.length ≠ expected then
    let actual := m.actual_positions.length
    [s!"Motor {motor_id}: actual positions length mismatch ({actual} != {expected})"]
  else []) ++
  (match m.commanded_velocities with
   | some cv =>
     if cv.length ≠ expected then
       let actual := cv.length
       [s!"Motor {motor_id}: commanded velocities length mismatch ({actual} != {expected})"]
     else []
   | none => []) ++
  (if m.actual_velocities.length ≠ expected then
    let actual := m.actual_velocities.length
    [s!"Motor {motor_id}: actual velocities length mismatch ({actual} != {expected})"]
  else [])

/-- Embedding of `TestData.validate_data`: walk the motors in order,
accumulating every violation; never fails. -/
def TestData.validate_data (td : TestData) : List String :=
  td.motors.foldl (fun errors e => errors ++ motorErrors td.time_points.length e.1 e.2) []

/-- Dictionary lookup on the insertion-ordered association list of motors. -/
def lookupMotor : List (Int × MotorData) → Int → Option MotorData
  | [], _ => none
  | e :: rest, id => if e.1 = id then some e.2 else lookupMotor rest id

/-- Specification predicate: all of a motor's series lengths agree with the
number of time points (`commanded_velocities` only when present). -/
def motorSeriesConsistent (n : Nat) (m : MotorData) : Prop :=
  m.commanded_positions.length = n ∧ m.actual_positions.length = n ∧
  (∀ cv, m.commanded_velocities = some cv → cv.length = n) ∧
  m.actual_velocities.length = n

/-! The control-loop tick.  Each iteration of the `while` loop of
`run_piecewise_test` (and of the waveform analogues) appends one time point,
then calls `log_command` once per active motor in order, then calls
`log_state` once per returned state in order. -/

/-- One tick's inputs: the elapsed time recorded, the per-motor commanded
values, and the per-motor state response. -/
structure Tick where
  t : ℚ
  cmds : List (Int × ℚ × Option ℚ)
  states : List (Int × ℚ × ℚ)

/-- The `log_command` call made for one command entry. -/
def cmdStep (a : TestData) (c : Int × ℚ × Option ℚ) : TestData :=
  a.log_command c.1 c.2.1 c.2.2

/-- The `log_state` call made for one state entry. -/
def stateStep (a : TestData) (s : Int × ℚ × ℚ) : TestData :=
  a.log_state s.1 s.2.1 s.2.2

/-- The command-logging loop of one tick. -/
def logCommands (td : TestData) (cmds : List (Int × ℚ × Option ℚ)) : TestData :=
  cmds.foldl cmdStep td

/-- The state-logging loop of one tick. -/
def logStates (td : TestData) (sts : List (Int × ℚ × ℚ)) : TestData :=
  sts.foldl stateStep td

/-- One full control-loop iteration acting on the log. -/
def runTick (td : TestData) (tk : Tick) : TestData :=
  logStates (logCommands (td.add_time_point tk.t) tk.cmds) tk.states

/-- A whole run: the control loop iterated over a tick sequence. -/
def runTicks (td : TestData) (tks : List Tick) : TestData :=
  tks.foldl runTick td

/-- The driver discipline claimed by the spec for one tick: `log_command` is
called exactly once per active motor, the state response covers exactly the
active motors, and in velocity mode every commanded velocity is present. -/
def TickOk (active : List Int) (sv : Bool) (tk : Tick) : Prop :=
  tk.cmds.map (·.1) = active ∧ tk.states.map (·.1) = active ∧
  (sv = true → ∀ c ∈ tk.cmds, c.2.2.isSome)

/-- All per-motor series of `m` have length `n`, and the commanded-velocity
series is present with length `n` exactly when velocity mode is on. -/
def motorGood (sv : Bool) (n : Nat) (m : MotorData) : Prop :=
  m.commanded_positions.length = n ∧ m.actual_positions.length = n ∧
  m.actual_velocities.length = n ∧
  (sv = true → ∃ l, m.commanded_velocities = some l ∧ l.length = n) ∧
  (sv = false → m.commanded_velocities = none)

/-- The inductive invariant of the logging loop. -/
def LogInv (active : List Int) (sv : Bool) (n : Nat) (td : TestData) : Prop :=
  td.send_velocity = sv ∧ td.time_points.length = n ∧
  (td.motors.map (·.1) = [] ∧ n = 0 ∨ td.motors.map (·.1) = active) ∧
  ∀ k ∈ active, ∀ m, lookupMotor td.motors k = some m → motorGood sv n m

/-- Specification-side count of the length mismatches `validate_data` should
report for one motor: one per mismatching series. -/
def mismatchCount (n : Nat) (m : MotorData) : Nat :=
  (if m.commanded_positions.length ≠ n then 1 else 0) +
  (if m.actual_positions.length ≠ n then 1 else 0) +
  (match m.commanded_velocities with
   | some cv => if cv.length ≠ n then 1 else 0
   | none => 0) +
  (if m.actual_velocities.length ≠ n then 1 else 0)

/-- A log whose motor 5 is missing one `actual_positions` entry relative to
three time points, while motor 7 (and everything else) is consistent. -/
def exampleShortLog : TestData :=
  { time_points := [0, 1, 2]
    motors :=
      [(5, { motor_id := 5
             commanded_positions := [1, 2, 3]
             actual_positions := [1, 2]
             commanded_velocities := none
             actual_velocities := [0, 0, 0] }),
       (7, { motor_id := 7
             commanded_positions := [1, 2, 3]
             actual_positions := [1, 2, 3]
             commanded_velocities := none
             actual_velocities := [0, 0, 0] })]
    send_velocity := false }

/-- A fully consistent log (velocity mode on). -/
def exampleConsistentLog : TestData :=
  { time_points := [0, 1]
    motors :=
      [(3, { motor_id := 3
             commanded_positions := [1, 2]
             actual_positions := [1, 2]
             commanded_velocities := some [4, 4]
             actual_velocities := [0, 0] })]
    send_velocity := true }

/-- One tick in velocity mode in which `log_command` is called with an absent
velocity: the resulting commanded-velocity series stays one short. -/
def exampleMissingVelLog : TestData :=
  ((({ send_velocity := true } : TestData).add_time_point 0).log_command 1 5 none).log_state 1 4 1

/-! Serialisation (`TestData.save` / `TestData.load`).  `save` writes a JSON
document whose motor keys are `str(motor_id)`; `load` rebuilds the motors
with `int(motor_id_str)`.  The document is modelled structurally; numeric
values are passed through unchanged. -/

/-- The per-motor dictionary produced by `asdict(motor_data)` inside
`TestData.save`. -/
structure SerializedMotor where
  motor_id : Int
  commanded_positions : List ℚ
  actual_positions : List ℚ
  commanded_velocities : Option (List ℚ)
  actual_velocities : List ℚ
  deriving DecidableEq, Repr

/-- The JSON document written by `TestData.save` and read by
`TestData.load`. -/
structure DataDict where
  time_points : List ℚ
  send_velocity : Bool
  motors : List (String × SerializedMotor)
  deriving DecidableEq, Repr

/-- `asdict` applied to one `MotorData`. -/
def asdictMotor (m : MotorData) : SerializedMotor :=
  ⟨m.motor_id, m.commanded_positions, m.actual_positions,
    m.commanded_velocities, m.actual_velocities⟩

/-- Embedding of `TestData.save`: the dict keys are `str(motor_id)`. -/
def TestData.save (td : TestData) : DataDict :=
  { time_points := td.time_points
    send_velocity := td.send_velocity
    motors := td.motors.map fun e => (toString e.1, asdictMotor e.2) }

/-- Decimal digit-string value: the `Nat` denoted by a nonempty list of
decimal digits, `none` if the list is empty or contains a non-digit. -/
def decNat? (l : List Char) : Option Nat :=
  if l ≠ [] ∧ l.all (·.isDigit) then
    some (l.foldl (fun n c => n * 10 + (c.toNat - '0'.toNat)) 0)
  else none

/-- Model of Python `int(s)` on the strings `str` produces for an int: an
optional leading minus sign followed by decimal digits. -/
def pyInt (s : String) : Option Int :=
  if s.data.head? = some '-' then (decNat? s.data.tail).map fun n => -(n : Int)
  else (decNat? s.data).map fun n => (n : Int)

/-- Python dict assignment `d[k] = v` on the association list: overwrite in
place when the key exists, append otherwise. -/
def dictInsert (l : List (Int × MotorData)) (k : Int) (v : MotorData) :
    List (Int × MotorData) :=
  if l.any (fun e => e.1 = k) then l.map fun e => if e.1 = k then (k, v) else e
  else l ++ [(k, v)]

/-- The motor-reconstruction loop of `TestData.load`: each key is parsed with
`int(...)` and the motor is rebuilt with `motor_id` taken from the key. -/
def loadMotors :
    List (String × SerializedMotor) → List (Int × MotorData) →
      Option (List (Int × MotorData))
  | [], acc => some acc
  | (k, sm) :: rest, acc =>
    match pyInt k with
    | none => none
    | some id =>
      loadMotors rest (dictInsert acc id
        { motor_id := id
          commanded_positions := sm.commanded_positions
          actual_positions := sm.actual_positions
          commanded_velocities := sm.commanded_velocities
          actual_velocities := sm.actual_velocities })

/-- Embedding of `TestData.load`. -/
def TestData.load (d : DataDict) : Option TestData :=
  (loadMotors d.motors []).map fun ms =>
    { time_points := d.time_points, motors := ms, send_velocity := d.send_velocity }

/-- Reference decimal digit list (most significant digit first) of a natural
number; used to characterise core's fuelled `Nat.toDigits`. -/
def decRepr (n : Nat) : List Char :=
  if _h : n < 10 then [Nat.digitChar n]
  else decRepr (n / 10) ++ [Nat.digitChar (n % 10)]
  termination_by n
  decreasing_by exact Nat.div_lt_self (by omega) (by omega)

/-- A concrete log exercising the save/load round trip: two motors, one with
a negative id, velocity mode on. -/
def exampleRoundTripLog : TestData :=
  { time_points := [0, 1/2]
    motors :=
      [(5, { motor_id := 5
             commanded_positions := [1, 2]
             actual_positions := [1, 3/2]
             commanded_velocities := some [4, 4]
             actual_velocities := [0, 1] }),
       (-3, { motor_id := -3
              commanded_positions := [7, 8]
              actual_positions := [7, 8]
              commanded_velocities := some [9, 9]
              actual_velocities := [2, 2] })]
    send_velocity := true }

/-! Trajectory computations (`run_piecewise_test`, `run_triangle_test`,
`run_step_test`).  Modelled over `ℚ`; a `none` result models an unhandled
Python exception at that computation. -/

/-- Python `%` for a nonzero rational modulus: `a - b * ⌊a / b⌋` (the result
has the sign of `b`). -/
def pyMod (a b : ℚ) : ℚ := a - b * ⌊a / b⌋

/-- Python `int()` applied to a rational: truncation toward zero. -/
def pyTrunc (x : ℚ) : Int := if 0 ≤ x then ⌊x⌋ else ⌈x⌉

/-- Python list indexing, including wrap-around for negative indices;
`none` models an `IndexError`. -/
def pyIndex (l : List ℚ) (i : Int) : Option ℚ :=
  if 0 ≤ i then l[i.toNat]?
  else if 0 ≤ (l.length : Int) + i then l[((l.length : Int) + i).toNat]? else none

/-- The pre-loop computation `time_per_position = duration / (len(positions) - 1)`
of `run_piecewise_test` (line 74); `none` models the `ZeroDivisionError`
raised there for a single-waypoint trajectory. -/
def piecewiseTimePerPosition (positions : List ℚ) (duration : ℚ) : Option ℚ :=
  if (((positions.length : Int) - 1 : Int) : ℚ) = 0 then none
  else some (duration / (((positions.length : Int) - 1 : Int) : ℚ))

/-- The in-loop computation of `run_piecewise_test` (lines 84–96): truncated
segment index, clamp to the last segment, linear interpolation, optional
slope velocity.  `none` models a `ZeroDivisionError` or `IndexError`. -/
def piecewiseStep (positions : List ℚ) (time_per_position : ℚ) (send_velocity : Bool)
    (t : ℚ) : Option (ℚ × Option ℚ) :=
  if time_per_position = 0 then none
  else
    let seg0 : Int := pyTrunc (t / time_per_position)
    let seg : Int :=
      if seg0 ≥ (positions.length : Int) - 1 then (positions.length : Int) - 2 else seg0
    match pyIndex positions seg, pyIndex positions (seg + 1) with
    | some start_pos, some end_pos =>
      let segment_progress := (t - (seg : ℚ) * time_per_position) / time_per_position
      some (start_pos + (end_pos - start_pos) * segment_progress,
        if send_velocity then some ((end_pos - start_pos) / time_per_position) else none)
    | _, _ => none

/-- The full piecewise target at elapsed time `t`: the pre-loop segment
duration followed by the in-loop interpolation. -/
def piecewiseTarget (positions : List ℚ) (duration : ℚ) (send_velocity : Bool)
    (t : ℚ) : Option (ℚ × Option ℚ) :=
  match piecewiseTimePerPosition positions duration with
  | none => none
  | some tpp => piecewiseStep positions tpp send_velocity t

/-- The piecewise trajectory as the spec words it: `N-1` equal segments of
duration `D/(N-1)`, segment index `⌊t/segDur⌋` clamped to `N-2`, position the
linear interpolation between the segment's endpoints by within-segment
progress, velocity the segment slope.  Written from the spec's formulas, to
be compared with the source-derived `piecewiseTarget`. -/
def piecewiseSpec (positions : List ℚ) (duration : ℚ) (t : ℚ) : ℚ × ℚ :=
  let n := positions.length
  let segDur := duration / ((n : ℚ) - 1)
  let i := min (⌊t / segDur⌋.toNat) (n - 2)
  let p := (t - (i : ℚ) * segDur) / segDur
  let a := positions.getD i 0
  let b := positions.getD (i + 1) 0
  (a + (b - a) * p, (b - a) / segDur)

/-- The in-loop computation of `run_triangle_test` (lines 80–94); `none`
models the `ZeroDivisionError` from `period = 1.0 / config.frequency` at
`f = 0`, which happens inside the loop body. -/
def triangleTarget (amplitude frequency : ℚ) (send_velocity : Bool) (t : ℚ) :
    Option (ℚ × Option ℚ) :=
  if frequency = 0 then none
  else
    let period := 1 / frequency
    let cycle_position := pyMod t period / period
    if cycle_position < 1/4 then
      some ((cycle_position * 4) * amplitude,
        if send_velocity then some (4 * amplitude * frequency) else none)
    else if cycle_position < 1/2 then
      some ((1/2 - cycle_position) * 4 * amplitude,
        if send_velocity then some (-4 * amplitude * frequency) else none)
    else if cycle_position < 3/4 then
      some (((cycle_position - 1/2) * 4) * (-amplitude),
        if send_velocity then some (-4 * amplitude * frequency) else none)
    else
      some ((cycle_position - 1) * 4 * amplitude,
        if send_velocity then some (4 * amplitude * frequency) else none)

/-- The in-loop computation of the step (square) tests; `none` models the
`ZeroDivisionError` from `period = 1.0 / config.frequency` at `f = 0`,
inside the loop body. -/
def squareTarget (amplitude frequency : ℚ) (send_velocity : Bool) (t : ℚ) :
    Option (ℚ × Option ℚ) :=
  if frequency = 0 then none
  else
    let period := 1 / frequency
    let cycle_position := pyMod t period / period
    some (if cycle_position < 1/2 then amplitude else 0,
      if send_velocity then some 0 else none)

/-- The sine target of `run_sine_test` (lines 132–135), over `ℝ`: position
`A·sin(2πf·t)` and, when enabled, velocity `A·2πf·cos(2πf·t)`.  No division
by the frequency occurs, so `f = 0` raises nothing. -/
noncomputable def sineTarget (amplitude frequency : ℝ) (use_velocity : Bool) (t : ℝ) :
    ℝ × Option ℝ :=
  let angular_freq := 2 * Real.pi * frequency
  (amplitude * Real.sin (angular_freq * t),
    if use_velocity then some (amplitude * angular_freq * Real.cos (angular_freq * t))
    else none)

/-! Interruption behaviour.  The loops of `run_piecewise_test`,
`run_triangle_test` and the actuator square test catch
`KeyboardInterrupt`/`CancelledError` and `return None`; `run_sine_test`
(and the waveforms square test) instead execute `return <collected data>`
inside their `finally` block, so an interrupted sine run returns the data
collected so far.  `interrupt_at = some k` models an operator interrupt
arriving during tick `k` (0-based), after `k` complete ticks. -/

/-- Result of the piecewise/triangle-style run loop: `None` on interruption,
the collected log otherwise. -/
def runPiecewiseLoop (tks : List Tick) (interrupt_at : Option Nat) (sv : Bool) :
    Option TestData :=
  match interrupt_at with
  | none => some (runTicks { send_velocity := sv } tks)
  | some k =>
    if k < tks.length then none
    else some (runTicks { send_velocity := sv } tks)

/-- Result of the sine-style run loop: the `return` inside `finally` always
returns the data collected so far, even when interrupted. -/
def runSineLoop (tks : List Tick) (interrupt_at : Option Nat) (sv : Bool) : TestData :=
  match interrupt_at with
  | none => runTicks { send_velocity := sv } tks
  | some k => runTicks { send_velocity := sv } (tks.take k)

/-- `main` of the piecewise/triangle tests: the run result paired with the
list of motors the final disable phase iterates over (every active motor,
failures isolated per motor). -/
def piecewiseMain (active : List Int) (tks : List Tick) (interrupt_at : Option Nat)
    (sv : Bool) : Option TestData × List Int :=
  (runPiecewiseLoop tks interrupt_at sv, active)

/-- `main` of the sine test: the collected tuple is always returned (and is
truthy), and the final disable phase likewise covers every motor. -/
def sineMain (active : List Int) (tks : List Tick) (interrupt_at : Option Nat)
    (sv : Bool) : Option TestData × List Int :=
  (some (runSineLoop tks interrupt_at sv), active)

theorem lookupMotor_append (l₁ l₂ : List (Int × MotorData)) (k : Int) :
    lookupMotor (l₁ ++ l₂) k =
      ((lookupMotor l₁ k).rec (lookupMotor l₂ k) fun m => some m) := by
  induction l₁ with
  | nil => simp [lookupMotor]
  | cons e rest ih =>
    by_cases h : e.1 = k <;> simp [lookupMotor, h, ih]

theorem lookupMotor_isSome_iff (l : List (Int × MotorData)) (k : Int) :
    (lookupMotor l k).isSome ↔ k ∈ l.map (·.1) := by
  induction l with
  | nil => simp [lookupMotor]
  | cons e rest ih =>
    by_cases h : e.1 = k
    · simp [lookupMotor, h]
    · have h' : ¬ k = e.1 := fun hk => h hk.symm
      simp [lookupMotor, h, h', ih]

theorem any_key_eq_lookup_isSome (l : List (Int × MotorData)) (k : Int) :
    (l.any fun e => e.1 = k) = (lookupMotor l k).isSome := by
  induction l with
  | nil => simp [lookupMotor]
  | cons e rest ih =>
    by_cases h : e.1 = k <;> simp [lookupMotor, h, ih]

theorem lookupMotor_map_update (l : List (Int × MotorData)) (id k : Int)
    (u : Int × MotorData → MotorData) :
    lookupMotor (l.map fun e => if e.1 = id then (e.1, u e) else e) k =
      if k = id then (lookupMotor l k).map (fun m => u (k, m)) else lookupMotor l k := by
  induction l with
  | nil => simp [lookupMotor]
  | cons e rest ih =>
    obtain ⟨a, m⟩ := e
    by_cases h : a = id
    · subst h
      by_cases hk : a = k
      · subst hk; simp [lookupMotor, ih]
      · have hki : ¬ k = a := fun hke => hk hke.symm
        simp [lookupMotor, hk, hki, ih]
    · by_cases hk : a = k
      · subst hk
        simp [lookupMotor, h, ih]
      · simp [lookupMotor, h, hk, ih]

theorem keys_map_update (l : List (Int × MotorData)) (id : Int)
    (u : Int × MotorData → MotorData) :
    (l.map fun e => if e.1 = id then (e.1, u e) else e).map (·.1) = l.map (·.1) := by
  induction l with
  | nil => rfl
  | cons e rest ih =>
    by_cases h : e.1 = id <;> simp [h, ih]

theorem lookupMotor_eq_of_mem (l : List (Int × MotorData)) (e : Int × MotorData)
    (hnd : (l.map (·.1)).Nodup) (he : e ∈ l) : lookupMotor l e.1 = some e.2 := by
  induction l with
  | nil => cases he
  | cons x rest ih =>
    rcases List.mem_cons.mp he with rfl | hmem
    · simp [lookupMotor]
    · have hx : x.1 ≠ e.1 := by
        intro hxe
        have hin : e.1 ∈ rest.map (·.1) := List.mem_map.mpr ⟨e, hmem, rfl⟩
        rw [← hxe] at hin
        exact (List.nodup_cons.mp hnd).1 hin
      simp [lookupMotor, hx, ih (List.nodup_cons.mp hnd).2 hmem]

/-! Behaviour of the logger operations, characterised through `lookupMotor`. -/

theorem add_motor_send_velocity (td : TestData) (id : Int) :
    (td.add_motor id).send_velocity = td.send_velocity := by
  unfold TestData.add_motor; split <;> rfl

theorem add_motor_time_points (td : TestData) (id : Int) :
    (td.add_motor id).time_points = td.time_points := by
  unfold TestData.add_motor; split <;> rfl

theorem add_motor_lookup (td : TestData) (id k : Int) :
    lookupMotor (td.add_motor id).motors k =
      if k = id then
        some ((lookupMotor td.motors id).getD (freshMotor id td.send_velocity))
      else lookupMotor td.motors k := by
  unfold TestData.add_motor
  rw [any_key_eq_lookup_isSome]
  rcases hm : lookupMotor td.motors id with _ | m
  · simp only [hm, Option.isSome_none, Bool.false_eq_true, if_false]
    rw [lookupMotor_append]
    by_cases hk : k = id
    · subst hk; simp [hm, lookupMotor]
    · rcases hlk : lookupMotor td.motors k with _ | mk <;>
        simp [hlk, lookupMotor, hk, Ne.symm hk]
  · by_cases hk : k = id
    · subst hk; simp [hm]
    · simp [hm, hk]

theorem add_motor_keys (td : TestData) (id : Int) :
    (td.add_motor id).motors.map (·.1) =
      if (lookupMotor td.motors id).isSome then td.motors.map (·.1)
      else td.motors.map (·.1) ++ [id] := by
  unfold TestData.add_motor
  rw [any_key_eq_lookup_isSome]
  split <;> simp_all

theorem log_command_send_velocity (td : TestData) (id : Int) (p : ℚ) (v : Option ℚ) :
    (td.log_command id p v).send_velocity = td.send_velocity := by
  simp [TestData.log_command, add_motor_send_velocity]

theorem log_command_time_points (td : TestData) (id : Int) (p : ℚ) (v : Option ℚ) :
    (td.log_command id p v).time_points = td.time_points := by
  simp [TestData.log_command, add_motor_time_points]

theorem log_command_lookup (td : TestData) (id : Int) (p : ℚ) (v : Option ℚ) (k : Int) :
    lookupMotor (td.log_command id p v).motors k =
      if k = id then
        some (((lookupMotor td.motors id).getD
          (freshMotor id td.send_velocity)).applyCommand p v)
      else lookupMotor td.motors k := by
  simp only [TestData.log_command]
  rw [lookupMotor_map_update, add_motor_lookup]
  by_cases hk : k = id
  · simp [hk]
  · simp [hk]

theorem log_command_keys (td : TestData) (id : Int) (p : ℚ) (v : Option ℚ) :
    (td.log_command id p v).motors.map (·.1) =
      if (lookupMotor td.motors id).isSome then td.motors.map (·.1)
      else td.motors.map (·.1) ++ [id] := by
  simp only [TestData.log_command]
  rw [keys_map_update, add_motor_keys]

theorem log_state_send_velocity (td : TestData) (id : Int) (p v : ℚ) :
    (td.log_state id p v).send_velocity = td.send_velocity := by
  simp [TestData.log_state, add_motor_send_velocity]

theorem log_state_time_points (td : TestData) (id : Int) (p v : ℚ) :
    (td.log_state id p v).time_points = td.time_points := by
  simp [TestData.log_state, add_motor_time_points]

theorem log_state_lookup (td : TestData) (id : Int) (p v : ℚ) (k : Int) :
    lookupMotor (td.log_state id p v).motors k =
      if k = id then
        some (((lookupMotor td.motors id).getD
          (freshMotor id td.send_velocity)).applyState p v)
      else lookupMotor td.motors k := by
  simp only [TestData.log_state]
  rw [lookupMotor_map_update, add_motor_lookup]
  by_cases hk : k = id
  · simp [hk]
  · simp [hk]

theorem log_state_keys (td : TestData) (id : Int) (p v : ℚ) :
    (td.log_state id p v).motors.map (·.1) =
      if (lookupMotor td.motors id).isSome then td.motors.map (·.1)
      else td.motors.map (·.1) ++ [id] := by
  simp only [TestData.log_state]
  rw [keys_map_update, add_motor_keys]

/-! Generic lemmas about folding a keyed register-and-update operation (the
shape shared by `log_command` and `log_state`) over a batch of items, as the
control loops do once per tick. -/

section KeyedFold

variable {β : Type} (step : TestData → β → TestData) (key : β → Int)
  (upd : β → MotorData → MotorData)

theorem fold_keyed_send_velocity
    (hsv : ∀ td b, (step td b).send_velocity = td.send_velocity)
    (items : List β) (td : TestData) :
    (items.foldl step td).send_velocity = td.send_velocity := by
  induction items generalizing td with
  | nil => rfl
  | cons b rest ih => simp [List.foldl_cons, ih, hsv]

theorem fold_keyed_time_points
    (htp : ∀ td b, (step td b).time_points = td.time_points)
    (items : List β) (td : TestData) :
    (items.foldl step td).time_points = td.time_points := by
  induction items generalizing td with
  | nil => rfl
  | cons b rest ih => simp [List.foldl_cons, ih, htp]

theorem fold_keyed_lookup_not_mem
    (hlk : ∀ td b k, lookupMotor (step td b).motors k =
      if k = key b then
        some (upd b ((lookupMotor td.motors (key b)).getD
          (freshMotor (key b) td.send_velocity)))
      else lookupMotor td.motors k)
    (items : List β) (td : TestData) (k : Int) (hk : k ∉ items.map key) :
    lookupMotor (items.foldl step td).motors k = lookupMotor td.motors k := by
  induction items generalizing td with
  | nil => rfl
  | cons b rest ih =>
    simp only [List.map_cons, List.mem_cons, not_or] at hk
    rw [List.foldl_cons, ih _ hk.2, hlk, if_neg hk.1]

theorem fold_keyed_lookup_mem
    (hsv : ∀ td b, (step td b).send_velocity = td.send_velocity)
    (hlk : ∀ td b k, lookupMotor (step td b).motors k =
      if k = key b then
        some (upd b ((lookupMotor td.motors (key b)).getD
          (freshMotor (key b) td.send_velocity)))
      else lookupMotor td.motors k)
    (items : List β) (td : TestData) (b : β)
    (hnd : (items.map key).Nodup) (hb : b ∈ items) :
    lookupMotor (items.foldl step td).motors (key b) =
      some (upd b ((lookupMotor td.motors (key b)).getD
        (freshMotor (key b) td.send_velocity))) := by
  induction items generalizing td with
  | nil => cases hb
  | cons b0 rest ih =>
    simp only [List.map_cons, List.nodup_cons] at hnd
    rcases List.mem_cons.mp hb with rfl | hmem
    · rw [List.foldl_cons,
        fold_keyed_lookup_not_mem step key upd hlk rest _ (key b) hnd.1, hlk, if_pos rfl]
    · have hne : key b ≠ key b0 := by
        intro h
        exact hnd.1 (h ▸ List.mem_map.mpr ⟨b, hmem, rfl⟩)
      rw [List.foldl_cons, ih _ hnd.2 hmem, hlk, if_neg hne, hsv]

theorem fold_keyed_keys
    (hks : ∀ td b, (step td b).motors.map (·.1) =
      if (lookupMotor td.motors (key b)).isSome then td.motors.map (·.1)
      else td.motors.map (·.1) ++ [key b])
    (hlk : ∀ td b k, lookupMotor (step td b).motors k =
      if k = key b then
        some (upd b ((lookupMotor td.motors (key b)).getD
          (freshMotor (key b) td.send_velocity)))
      else lookupMotor td.motors k)
    (items : List β) (td : TestData) (hnd : (items.map key).Nodup) :
    (items.foldl step td).motors.map (·.1) =
      td.motors.map (·.1) ++
        (items.map key).filter (fun k => !(lookupMotor td.motors k).isSome) := by
  induction items generalizing td with
  | nil => simp
  | cons b rest ih =>
    simp only [List.map_cons, List.nodup_cons] at hnd
    rw [List.foldl_cons, ih _ hnd.2]
    have hfilter : ∀ k ∈ rest.map key,
        (!(lookupMotor (step td b).motors k).isSome) =
          (!(lookupMotor td.motors k).isSome) := by
      intro k hkmem
      have hne : k ≠ key b := fun h => hnd.1 (h ▸ hkmem)
      rw [hlk, if_neg hne]
    rw [List.filter_congr hfilter, hks]
    by_cases hpres : (lookupMotor td.motors (key b)).isSome
    · rw [if_pos hpres]
      obtain ⟨m, hm⟩ := Option.isSome_iff_exists.mp hpres
      simp [List.filter_cons, hm]
    · rw [if_neg hpres]
      have hnone := Option.not_isSome_iff_eq_none.mp hpres
      simp [List.filter_cons, hnone]

end KeyedFold

/-! Characterisation of `validate_data`. -/

theorem validate_data_eq_flatten (td : TestData) :
    td.validate_data =
      (td.motors.map fun e => motorErrors td.time_points.length e.1 e.2).flatten := by
  unfold TestData.validate_data
  generalize td.time_points.length = n
  suffices h : ∀ (l : List (Int × MotorData)) (init : List String),
      l.foldl (fun errors e => errors ++ motorErrors n e.1 e.2) init =
        init ++ (l.map fun e => motorErrors n e.1 e.2).flatten by
    simpa using h td.motors []
  intro l
  induction l with
  | nil => simp
  | cons e rest ih => intro init; simp [ih, List.append_assoc]

theorem motorErrors_eq_nil_iff (n : Nat) (id : Int) (m : MotorData) :
    motorErrors n id m = [] ↔ motorSeriesConsistent n m := by
  unfold motorErrors motorSeriesConsistent
  rcases hcv : m.commanded_velocities with _ | cv <;>
    by_cases h1 : m.commanded_positions.length = n <;>
    by_cases h2 : m.actual_positions.length = n <;>
    by_cases h4 : m.actual_velocities.length = n <;>
    simp_all

theorem validate_data_eq_nil_iff (td : TestData) :
    td.validate_data = [] ↔
      ∀ e ∈ td.motors, motorSeriesConsistent td.time_points.length e.2 := by
  rw [validate_data_eq_flatten, List.flatten_eq_nil_iff]
  constructor
  · intro h e he
    exact (motorErrors_eq_nil_iff _ e.1 e.2).mp
      (h _ (List.mem_map.mpr ⟨e, he, rfl⟩))
  · rintro h l hl
    obtain ⟨e, he, rfl⟩ := List.mem_map.mp hl
    exact (motorErrors_eq_nil_iff _ e.1 e.2).mpr (h e he)

theorem motorGood_freshMotor (sv : Bool) (id : Int) :
    motorGood sv 0 (freshMotor id sv) := by
  cases sv <;> simp [motorGood, freshMotor]

theorem motorGood_applyCommand {sv : Bool} {n : Nat} {m : MotorData}
    (h : motorGood sv n m) (p : ℚ) (v : Option ℚ) (hv : sv = true → v.isSome) :
    (m.applyCommand p v).commanded_positions.length = n + 1 ∧
    (m.applyCommand p v).actual_positions.length = n ∧
    (m.applyCommand p v).actual_velocities.length = n ∧
    (sv = true → ∃ l, (m.applyCommand p v).commanded_velocities = some l ∧
      l.length = n + 1) ∧
    (sv = false → (m.applyCommand p v).commanded_velocities = none) := by
  obtain ⟨h1, h2, h3, h4, h5⟩ := h
  cases sv with
  | false =>
    rcases v with _ | v0 <;>
      simp [MotorData.applyCommand, h1, h2, h3, h5 rfl]
  | true =>
    obtain ⟨l, hl, hlen⟩ := h4 rfl
    obtain ⟨v0, rfl⟩ := Option.isSome_iff_exists.mp (hv rfl)
    simp [MotorData.applyCommand, h1, h2, h3, hl, hlen]

theorem motorGood_applyState_of_mid {sv : Bool} {n : Nat} {m : MotorData}
    (h1 : m.commanded_positions.length = n + 1)
    (h2 : m.actual_positions.length = n)
    (h3 : m.actual_velocities.length = n)
    (h4 : sv = true → ∃ l, m.commanded_velocities = some l ∧ l.length = n + 1)
    (h5 : sv = false → m.commanded_velocities = none)
    (p v : ℚ) :
    motorGood sv (n + 1) (m.applyState p v) := by
  exact ⟨by simp [MotorData.applyState, h1], by simp [MotorData.applyState, h2],
    by simp [MotorData.applyState, h3], by simpa [MotorData.applyState] using h4,
    by simpa [MotorData.applyState] using h5⟩

/-! The generic fold lemmas, specialised to the two per-tick loops. -/

theorem logCommands_sv (td : TestData) (cmds : List (Int × ℚ × Option ℚ)) :
    (logCommands td cmds).send_velocity = td.send_velocity :=
  fold_keyed_send_velocity cmdStep
    (fun a c => log_command_send_velocity a c.1 c.2.1 c.2.2) cmds td

theorem logCommands_tp (td : TestData) (cmds : List (Int × ℚ × Option ℚ)) :
    (logCommands td cmds).time_points = td.time_points :=
  fold_keyed_time_points cmdStep
    (fun a c => log_command_time_points a c.1 c.2.1 c.2.2) cmds td

theorem logCommands_lookup_mem (td : TestData) (cmds : List (Int × ℚ × Option ℚ))
    (c : Int × ℚ × Option ℚ) (hnd : (cmds.map (·.1)).Nodup) (hc : c ∈ cmds) :
    lookupMotor (logCommands td cmds).motors c.1 =
      some (((lookupMotor td.motors c.1).getD
        (freshMotor c.1 td.send_velocity)).applyCommand c.2.1 c.2.2) :=
  fold_keyed_lookup_mem cmdStep (·.1) (fun c m => m.applyCommand c.2.1 c.2.2)
    (fun a b => log_command_send_velocity a b.1 b.2.1 b.2.2)
    (fun a b k => log_command_lookup a b.1 b.2.1 b.2.2 k) cmds td c hnd hc

theorem logCommands_keys (td : TestData) (cmds : List (Int × ℚ × Option ℚ))
    (hnd : (cmds.map (·.1)).Nodup) :
    (logCommands td cmds).motors.map (·.1) =
      td.motors.map (·.1) ++
        (cmds.map (·.1)).filter (fun k => !(lookupMotor td.motors k).isSome) :=
  fold_keyed_keys cmdStep (·.1) (fun c m => m.applyCommand c.2.1 c.2.2)
    (fun a b => log_command_keys a b.1 b.2.1 b.2.2)
    (fun a b k => log_command_lookup a b.1 b.2.1 b.2.2 k) cmds td hnd

theorem logStates_sv (td : TestData) (sts : List (Int × ℚ × ℚ)) :
    (logStates td sts).send_velocity = td.send_velocity :=
  fold_keyed_send_velocity stateStep
    (fun a s => log_state_send_velocity a s.1 s.2.1 s.2.2) sts td

theorem logStates_tp (td : TestData) (sts : List (Int × ℚ × ℚ)) :
    (logStates td sts).time_points = td.time_points :=
  fold_keyed_time_points stateStep
    (fun a s => log_state_time_points a s.1 s.2.1 s.2.2) sts td

theorem logStates_lookup_mem (td : TestData) (sts : List (Int × ℚ × ℚ))
    (s : Int × ℚ × ℚ) (hnd : (sts.map (·.1)).Nodup) (hs : s ∈ sts) :
    lookupMotor (logStates td sts).motors s.1 =
      some (((lookupMotor td.motors s.1).getD
        (freshMotor s.1 td.send_velocity)).applyState s.2.1 s.2.2) :=
  fold_keyed_lookup_mem stateStep (·.1) (fun s m => m.applyState s.2.1 s.2.2)
    (fun a b => log_state_send_velocity a b.1 b.2.1 b.2.2)
    (fun a b k => log_state_lookup a b.1 b.2.1 b.2.2 k) sts td s hnd hs

theorem logStates_keys (td : TestData) (sts : List (Int × ℚ × ℚ))
    (hnd : (sts.map (·.1)).Nodup) :
    (logStates td sts).motors.map (·.1) =
      td.motors.map (·.1) ++
        (sts.map (·.1)).filter (fun k => !(lookupMotor td.motors k).isSome) :=
  fold_keyed_keys stateStep (·.1) (fun s m => m.applyState s.2.1 s.2.2)
    (fun a b => log_state_keys a b.1 b.2.1 b.2.2)
    (fun a b k => log_state_lookup a b.1 b.2.1 b.2.2 k) sts td hnd

/-- If a log's motor keys are exactly `active`, registering-and-updating once
per active key leaves the key list unchanged. -/
theorem filter_absent_of_keys_eq (td : TestData) (active : List Int)
    (hkeys : td.motors.map (·.1) = active) :
    active.filter (fun k => !(lookupMotor td.motors k).isSome) = [] := by
  rw [List.filter_eq_nil_iff]
  intro k hk
  have : (lookupMotor td.motors k).isSome := by
    rw [lookupMotor_isSome_iff, hkeys]; exact hk
  simp [this]

/-- The invariant is preserved by one tick obeying the driver discipline. -/
theorem LogInv_runTick (active : List Int) (sv : Bool) (n : Nat) (td : TestData)
    (tk : Tick) (hnd : active.Nodup) (hinv : LogInv active sv n td)
    (hok : TickOk active sv tk) :
    LogInv active sv (n + 1) (runTick td tk) := by
  obtain ⟨hsv, htp, hkeys, hgood⟩ := hinv
  obtain ⟨hc, hs, hv⟩ := hok
  have hndc : (tk.cmds.map (·.1)).Nodup := by rw [hc]; exact hnd
  have hnds : (tk.states.map (·.1)).Nodup := by rw [hs]; exact hnd
  have htd1m : (td.add_time_point tk.t).motors = td.motors := rfl
  have htd1sv : (td.add_time_point tk.t).send_velocity = td.send_velocity := rfl
  -- keys after the command loop are exactly `active`
  have hkeys2 : (logCommands (td.add_time_point tk.t) tk.cmds).motors.map (·.1) = active := by
    rw [logCommands_keys _ _ hndc, htd1m, hc]
    rcases hkeys with ⟨hnil, _⟩ | hact
    · have hmnil : td.motors = [] := List.map_eq_nil_iff.mp hnil
      rw [hnil, List.nil_append, List.filter_eq_self.mpr]
      intro k _
      simp [hmnil, lookupMotor]
    · rw [filter_absent_of_keys_eq td active hact, List.append_nil, hact]
  have hsv2 : (logCommands (td.add_time_point tk.t) tk.cmds).send_velocity = sv := by
    rw [logCommands_sv, htd1sv, hsv]
  refine ⟨?_, ?_, ?_, ?_⟩
  · show (logStates _ _).send_velocity = sv
    rw [logStates_sv, hsv2]
  · show (logStates _ _).time_points.length = n + 1
    rw [logStates_tp, logCommands_tp]
    simp [TestData.add_time_point, htp]
  · right
    show (logStates _ _).motors.map (·.1) = active
    rw [logStates_keys _ _ hnds, hkeys2, hs,
      filter_absent_of_keys_eq _ active hkeys2, List.append_nil]
  · intro k hk m hm
    -- the state entry and command entry for this motor
    obtain ⟨s, hsmem, hskey⟩ := List.mem_map.mp (hs ▸ hk)
    obtain ⟨c, hcmem, hckey⟩ := List.mem_map.mp (hc ▸ hk)
    -- value after the command loop
    have hlk1 : lookupMotor td.motors c.1 = lookupMotor td.motors k := by rw [hckey]
    have hmid := logCommands_lookup_mem (td.add_time_point tk.t) tk.cmds c hndc hcmem
    rw [htd1m, htd1sv, hsv, hckey] at hmid
    -- the pre-tick motor value (or a fresh one) is good at stage n
    have hold : motorGood sv n ((lookupMotor td.motors k).getD (freshMotor k sv)) := by
      rcases hlkup : lookupMotor td.motors k with _ | m0
      · rcases hkeys with ⟨_, hn0⟩ | hact
        · subst hn0; simpa using motorGood_freshMotor sv k
        · exfalso
          have : (lookupMotor td.motors k).isSome := by
            rw [lookupMotor_isSome_iff, hact]; exact hk
          simp [hlkup] at this
      · simpa using hgood k hk m0 hlkup
    have hvel : sv = true → (c.2.2).isSome := fun h => hv h c hcmem
    have hmidgood := motorGood_applyCommand hold c.2.1 c.2.2 hvel
    -- value after the state loop
    have hfin := logStates_lookup_mem (logCommands (td.add_time_point tk.t) tk.cmds)
      tk.states s hnds hsmem
    rw [hskey, hmid] at hfin
    simp only [runTick] at hm
    rw [hfin] at hm
    simp only [Option.getD_some, Option.some.injEq] at hm
    subst hm
    exact motorGood_applyState_of_mid hmidgood.1 hmidgood.2.1 hmidgood.2.2.1
      hmidgood.2.2.2.1 hmidgood.2.2.2.2 s.2.1 s.2.2

/-- The invariant holds after any number of well-disciplined ticks. -/
theorem LogInv_runTicks (active : List Int) (sv : Bool) (tks : List Tick)
    (td : TestData) (n : Nat) (hnd : active.Nodup) (hinv : LogInv active sv n td)
    (hok : ∀ tk ∈ tks, TickOk active sv tk) :
    LogInv active sv (n + tks.length) (runTicks td tks) := by
  induction tks generalizing td n with
  | nil => simpa [runTicks] using hinv
  | cons tk rest ih =>
    have hstep := LogInv_runTick active sv n td tk hnd hinv (hok tk (List.mem_cons_self tk rest))
    have := ih (runTick td tk) (n + 1) hstep (fun tk' h => hok tk' (List.mem_cons_of_mem _ h))
    simpa [runTicks, List.foldl_cons, Nat.add_assoc, Nat.add_comm 1 rest.length] using this

/-- The invariant holds for a run started on an empty log. -/
theorem LogInv_run_from_empty (active : List Int) (sv : Bool) (tks : List Tick)
    (hnd : active.Nodup) (hok : ∀ tk ∈ tks, TickOk active sv tk) :
    LogInv active sv tks.length (runTicks { send_velocity := sv } tks) := by
  have hempty : LogInv active sv 0 { send_velocity := sv } := by
    refine ⟨rfl, rfl, Or.inl ⟨rfl, rfl⟩, ?_⟩
    intro k _ m hm
    simp [lookupMotor] at hm
  simpa using LogInv_runTicks active sv tks { send_velocity := sv } 0 hnd hempty hok

/-- Every motor record in the final log is good at stage `tks.length`. -/
theorem runTicks_entry_good (active : List Int) (sv : Bool) (tks : List Tick)
    (hnd : active.Nodup) (hok : ∀ tk ∈ tks, TickOk active sv tk) :
    ∀ e ∈ (runTicks { send_velocity := sv } tks).motors, motorGood sv tks.length e.2 := by
  intro e he
  obtain ⟨hsv, htp, hkeys, hgood⟩ := LogInv_run_from_empty active sv tks hnd hok
  rcases hkeys with ⟨hnil, _⟩ | hact
  · rw [List.map_eq_nil_iff.mp hnil] at he; cases he
  · have hknd : ((runTicks { send_velocity := sv } tks).motors.map (·.1)).Nodup := by
      rw [hact]; exact hnd
    have hlk := lookupMotor_eq_of_mem _ e hknd he
    have hkin : e.1 ∈ active := by
      rw [← hact]; exact List.mem_map.mpr ⟨e, he, rfl⟩
    exact hgood e.1 hkin e.2 hlk

/-- C1: starting from an empty log, if every tick appends one time point,
calls `log_command` once per active motor (with a present velocity whenever
velocity mode is on) and `log_state` once per active motor, then after every
tick every tracked motor's `commanded_positions`, `actual_positions` and
`actual_velocities` have the same length as `time_points` (which equals the
number of ticks so far), in velocity mode `commanded_velocities` does too,
and `validate_data` on the finished log returns the empty list. -/
theorem log_consistency_invariant (active : List Int) (sv : Bool) (tks : List Tick)
    (hnd : active.Nodup) (hok : ∀ tk ∈ tks, TickOk active sv tk) :
    (∀ j : Nat,
      (runTicks { send_velocity := sv } (tks.take j)).time_points.length =
        (tks.take j).length ∧
      ∀ e ∈ (runTicks { send_velocity := sv } (tks.take j)).motors,
        e.2.commanded_positions.length = (tks.take j).length ∧
        e.2.actual_positions.length = (tks.take j).length ∧
        e.2.actual_velocities.length = (tks.take j).length ∧
        (sv = true → ∃ l, e.2.commanded_velocities = some l ∧
          l.length = (tks.take j).length)) ∧
    (runTicks { send_velocity := sv } tks).validate_data = [] := by
  have hmain : ∀ (ts : List Tick), (∀ tk ∈ ts, TickOk active sv tk) →
      (runTicks { send_velocity := sv } ts).time_points.length = ts.length ∧
      ∀ e ∈ (runTicks { send_velocity := sv } ts).motors,
        motorGood sv ts.length e.2 := by
    intro ts hts
    exact ⟨(LogInv_run_from_empty active sv ts hnd hts).2.1,
      runTicks_entry_good active sv ts hnd hts⟩
  constructor
  · intro j
    have htake : ∀ tk ∈ tks.take j, TickOk active sv tk :=
      fun tk h => hok tk (List.mem_of_mem_take h)
    obtain ⟨htp, hgood⟩ := hmain (tks.take j) htake
    refine ⟨htp, fun e he => ?_⟩
    obtain ⟨h1, h2, h3, h4, _⟩ := hgood e he
    exact ⟨h1, h2, h3, h4⟩
  · obtain ⟨htp, hgood⟩ := hmain tks hok
    rw [validate_data_eq_nil_iff]
    intro e he
    obtain ⟨h1, h2, h3, h4, h5⟩ := hgood e he
    rw [htp]
    refine ⟨h1, h2, ?_, h3⟩
    intro cv hcv
    cases sv with
    | false => rw [h5 rfl] at hcv; cases hcv
    | true =>
      obtain ⟨l, hl, hlen⟩ := h4 rfl
      rw [hl] at hcv
      cases hcv
      exact hlen

/-- Witness for `log_consistency_invariant`: a two-motor velocity-mode run of
one well-formed tick validates cleanly. -/
theorem log_consistency_invariant_witness :
    ([1, 2] : List Int).Nodup ∧
    (runTicks { send_velocity := true }
      [⟨0, [(1, 5, some 2), (2, 5, some 2)], [(1, 4, 1), (2, 4, 1)]⟩]).validate_data = [] :=
  ⟨by decide,
    (log_consistency_invariant [1, 2] true
      [⟨0, [(1, 5, some 2), (2, 5, some 2)], [(1, 4, 1), (2, 4, 1)]⟩]
      (by decide)
      (by
        intro tk htk
        rcases List.mem_singleton.mp htk with rfl
        exact ⟨rfl, rfl, fun _ => by decide⟩)).2⟩

theorem motorErrors_length (n : Nat) (id : Int) (m : MotorData) :
    (motorErrors n id m).length = mismatchCount n m := by
  unfold motorErrors mismatchCount
  rcases m.commanded_velocities with _ | cv
  · by_cases h1 : m.commanded_positions.length = n <;>
      by_cases h2 : m.actual_positions.length = n <;>
      by_cases h4 : m.actual_velocities.length = n <;>
      simp_all
  · by_cases h1 : m.commanded_positions.length = n <;>
      by_cases h2 : m.actual_positions.length = n <;>
      by_cases h3 : cv.length = n <;>
      by_cases h4 : m.actual_velocities.length = n <;>
      simp_all

/-- C2: `validate_data` is total (it is a Lean function), returns the empty
list exactly when every tracked motor's series lengths agree with
`time_points`, reports one violation per mismatching series rather than
stopping at the first, and on a log whose motor 5 is one `actual_positions`
entry short it returns exactly one violation naming that motor and field. -/
theorem validate_data_reports_every_violation :
    (∀ td : TestData, td.validate_data = [] ↔
      ∀ e ∈ td.motors, motorSeriesConsistent td.time_points.length e.2) ∧
    (∀ td : TestData, td.validate_data.length =
      ((td.motors.map fun e => mismatchCount td.time_points.length e.2).sum)) ∧
    exampleShortLog.validate_data =
      ["Motor 5: actual positions length mismatch (2 != 3)"] ∧
    exampleConsistentLog.validate_data = [] := by
  refine ⟨validate_data_eq_nil_iff, ?_, ?_, ?_⟩
  · intro td
    rw [validate_data_eq_flatten, List.length_flatten, List.map_map]
    congr 1
    apply List.map_congr_left
    intro e _
    exact motorErrors_length td.time_points.length e.1 e.2
  · rfl
  · rfl

/-- C9: in velocity mode, a `log_command` call whose velocity argument is
absent appends the position but nothing to `commanded_velocities`, leaving
that series shorter than `commanded_positions`; nothing fails at the call
site and `validate_data` afterwards reports the mismatch. -/
theorem log_command_absent_velocity (td : TestData) (_hsv : td.send_velocity = true)
    (id : Int) (p : ℚ) (m : MotorData) (hm : lookupMotor td.motors id = some m) :
    (∃ m', lookupMotor (td.log_command id p none).motors id = some m' ∧
      m'.commanded_positions = m.commanded_positions ++ [p] ∧
      m'.commanded_velocities = m.commanded_velocities ∧
      (∀ l, m.commanded_velocities = some l →
        l.length = m.commanded_positions.length →
        ∃ l', m'.commanded_velocities = some l' ∧
          l'.length < m'.commanded_positions.length)) ∧
    exampleMissingVelLog.validate_data =
      ["Motor 1: commanded velocities length mismatch (0 != 1)"] := by
  constructor
  · refine ⟨m.applyCommand p none, ?_, ?_, ?_, ?_⟩
    · rw [log_command_lookup, if_pos rfl, hm, Option.getD_some]
    · simp [MotorData.applyCommand]
    · simp [MotorData.applyCommand]
    · intro l hl hlen
      refine ⟨l, by simp [MotorData.applyCommand, hl], ?_⟩
      simp [MotorData.applyCommand, hlen]
  · rfl

/-- Witness for `log_command_absent_velocity` at a concrete registered
motor. -/
theorem log_command_absent_velocity_witness :
    exampleMissingVelLog.send_velocity = true ∧
    lookupMotor exampleMissingVelLog.motors 1 =
      some { motor_id := 1
             commanded_positions := [5]
             actual_positions := [4]
             commanded_velocities := some []
             actual_velocities := [1] } ∧
    (∃ m', lookupMotor (exampleMissingVelLog.log_command 1 (7 : ℚ) none).motors 1 =
        some m' ∧
      m'.commanded_positions = [5] ++ [(7 : ℚ)] ∧
      m'.commanded_velocities = some [] ∧
      (∀ l, (some [] : Option (List ℚ)) = some l →
        l.length = ([5] : List ℚ).length →
        ∃ l', m'.commanded_velocities = some l' ∧
          l'.length < m'.commanded_positions.length)) :=
  ⟨by decide, by decide,
    ((log_command_absent_velocity exampleMissingVelLog (by decide) 1 7
      { motor_id := 1
        commanded_positions := [5]
        actual_positions := [4]
        commanded_velocities := some []
        actual_velocities := [1] } (by decide)).1)⟩

/-! Correctness of the decimal key round trip `int(str(i)) == i`. -/

theorem digitChar_isDigit {d : Nat} (hd : d < 10) : (Nat.digitChar d).isDigit = true := by
  interval_cases d <;> decide

theorem digitChar_val {d : Nat} (hd : d < 10) :
    (Nat.digitChar d).toNat - Char.toNat '0' = d := by
  interval_cases d <;> decide

theorem toDigitsCore_eq_decRepr (fuel : Nat) :
    ∀ (n : Nat) (acc : List Char), n < fuel →
      Nat.toDigitsCore 10 fuel n acc = decRepr n ++ acc := by
  induction fuel with
  | zero => intro n acc h; omega
  | succ f ih =>
    intro n acc h
    rw [show Nat.toDigitsCore 10 (f + 1) n acc =
      if n / 10 = 0 then Nat.digitChar (n % 10) :: acc
      else Nat.toDigitsCore 10 f (n / 10) (Nat.digitChar (n % 10) :: acc) from rfl]
    by_cases h10 : n / 10 = 0
    · have hn : n < 10 := by omega
      rw [if_pos h10, decRepr, dif_pos hn, Nat.mod_eq_of_lt hn]
      rfl
    · have hge : 10 ≤ n := by
        by_contra hlt
        exact h10 (Nat.div_eq_of_lt (by omega))
      have hlt : n / 10 < f := by
        have hdiv := Nat.div_lt_self (show 0 < n by omega) (show 1 < 10 by omega)
        omega
      rw [if_neg h10, ih (n / 10) _ hlt]
      conv_rhs => rw [decRepr]
      rw [dif_neg (show ¬ n < 10 by omega), List.append_assoc]
      rfl

theorem toDigits_eq_decRepr (n : Nat) : Nat.toDigits 10 n = decRepr n := by
  rw [Nat.toDigits, toDigitsCore_eq_decRepr (n + 1) n [] (Nat.lt_succ_self n),
    List.append_nil]

theorem decRepr_ne_nil (n : Nat) : decRepr n ≠ [] := by
  rw [decRepr]
  split <;> simp

theorem decRepr_all_digits (n : Nat) : ∀ c ∈ decRepr n, c.isDigit = true := by
  induction n using Nat.strong_induction_on with
  | _ n ih =>
    rw [decRepr]
    split
    · next h =>
      intro c hc
      rw [List.mem_singleton.mp hc]
      exact digitChar_isDigit h
    · next h =>
      intro c hc
      rcases List.mem_append.mp hc with h1 | h2
      · exact ih (n / 10) (Nat.div_lt_self (by omega) (by omega)) c h1
      · rw [List.mem_singleton.mp h2]
        exact digitChar_isDigit (Nat.mod_lt n (by omega))

theorem decRepr_foldl (n : Nat) : ∀ a : Nat,
    (decRepr n).foldl (fun acc c => acc * 10 + (c.toNat - Char.toNat '0')) a =
      a * 10 ^ (decRepr n).length + n := by
  induction n using Nat.strong_induction_on with
  | _ n ih =>
    intro a
    rw [decRepr]
    split
    · next h =>
      simp only [List.foldl_cons, List.foldl_nil, List.length_singleton, pow_one]
      rw [digitChar_val h]
    · next h =>
      rw [List.foldl_append, ih (n / 10) (Nat.div_lt_self (by omega) (by omega)) a]
      simp only [List.length_append, List.length_singleton, List.foldl_cons,
        List.foldl_nil]
      rw [digitChar_val (Nat.mod_lt n (by omega)), pow_succ]
      have hdm := Nat.div_add_mod n 10
      generalize (10 : Nat) ^ (decRepr (n / 10)).length = K at *
      have : a * (K * 10) = a * K * 10 := by ring
      omega

theorem decNat?_decRepr (n : Nat) : decNat? (decRepr n) = some n := by
  unfold decNat?
  rw [if_pos ⟨decRepr_ne_nil n, List.all_eq_true.mpr (decRepr_all_digits n)⟩,
    decRepr_foldl n 0]
  simp

theorem decRepr_head_isDigit (n : Nat) :
    ∃ c rest, decRepr n = c :: rest ∧ c.isDigit = true := by
  rcases hd : decRepr n with _ | ⟨c, rest⟩
  · exact absurd hd (decRepr_ne_nil n)
  · exact ⟨c, rest, rfl, decRepr_all_digits n c (hd ▸ List.mem_cons_self c rest)⟩

theorem repr_data_eq_decRepr (n : Nat) : (Nat.repr n).data = decRepr n := by
  rw [Nat.repr, toDigits_eq_decRepr]
  rfl

/-- Parsing the decimal string of any integer recovers the integer. -/
theorem pyInt_toString (i : Int) : pyInt (toString i) = some i := by
  cases i with
  | ofNat n =>
    show pyInt (Nat.repr n) = some (Int.ofNat n)
    unfold pyInt
    obtain ⟨c, rest, hd, hdig⟩ := decRepr_head_isDigit n
    have hdata : (Nat.repr n).data = c :: rest := by rw [repr_data_eq_decRepr, hd]
    have hcne : c ≠ '-' := by
      intro hc
      rw [hc] at hdig
      exact absurd hdig (by decide)
    rw [hdata]
    simp only [List.head?_cons, Option.some.injEq]
    rw [if_neg hcne, ← hdata, repr_data_eq_decRepr, decNat?_decRepr]
    rfl
  | negSucc m =>
    show pyInt ("-" ++ Nat.repr (m + 1)) = some (Int.negSucc m)
    unfold pyInt
    have hdata : ("-" ++ Nat.repr (m + 1)).data = '-' :: (Nat.repr (m + 1)).data := by
      rw [String.data_append]
      rfl
    rw [hdata]
    simp only [List.head?_cons, List.tail_cons, if_pos rfl, repr_data_eq_decRepr,
      decNat?_decRepr, Option.map_some]
    congr 1

/-! The save/load round trip. -/

theorem dictInsert_fresh (l : List (Int × MotorData)) (k : Int) (v : MotorData)
    (hk : ¬ (lookupMotor l k).isSome) : dictInsert l k v = l ++ [(k, v)] := by
  unfold dictInsert
  rw [any_key_eq_lookup_isSome, if_neg (by simpa using hk)]

theorem loadMotors_save (l : List (Int × MotorData))
    (hids : ∀ e ∈ l, e.2.motor_id = e.1) (hnd : (l.map (·.1)).Nodup) :
    ∀ acc : List (Int × MotorData), (∀ e ∈ l, ¬ (lookupMotor acc e.1).isSome) →
      loadMotors (l.map fun e => (toString e.1, asdictMotor e.2)) acc =
        some (acc ++ l) := by
  induction l with
  | nil => intro acc _; simp [loadMotors]
  | cons e rest ih =>
    intro acc hacc
    obtain ⟨a, m⟩ := e
    simp only [List.map_cons, loadMotors, pyInt_toString]
    have hmid : m.motor_id = a := hids (a, m) (List.mem_cons_self _ _)
    have hrebuild :
        ({ motor_id := a
           commanded_positions := (asdictMotor m).commanded_positions
           actual_positions := (asdictMotor m).actual_positions
           commanded_velocities := (asdictMotor m).commanded_velocities
           actual_velocities := (asdictMotor m).actual_velocities } : MotorData) = m := by
      cases m
      simp_all [asdictMotor]
    rw [hrebuild, dictInsert_fresh acc a m (hacc (a, m) (List.mem_cons_self _ _))]
    rw [ih (fun x hx => hids x (List.mem_cons_of_mem _ hx))
      (List.nodup_cons.mp (by simpa using hnd)).2]
    · simp
    · intro x hx
      rw [lookupMotor_append]
      have hxacc := hacc x (List.mem_cons_of_mem _ hx)
      rcases hlk : lookupMotor acc x.1 with _ | mm
      · have hxa : x.1 ≠ a := by
          intro hxa
          have hin : x.1 ∈ rest.map (·.1) := List.mem_map.mpr ⟨x, hx, rfl⟩
          rw [hxa] at hin
          exact (List.nodup_cons.mp (by simpa using hnd)).1 hin
        have hax : ¬ a = x.1 := fun hh => hxa hh.symm
        simp [lookupMotor, hax]
      · rw [hlk] at hxacc
        simp at hxacc

/-- C3: deserialising the output of `serialize` reproduces an equivalent log:
identical `time_points`, identical velocity-mode flag, and identical
per-motor series (including an absent `commanded_velocities`), with actuator
ids mapped back to the same integers and all numeric values passed through
unchanged.  The hypotheses say the log's dict is well-formed: distinct keys,
each motor's `motor_id` equal to its key — which holds for every log the
logger builds. -/
theorem save_load_round_trip (td : TestData)
    (hnd : (td.motors.map (·.1)).Nodup)
    (hids : ∀ e ∈ td.motors, e.2.motor_id = e.1) :
    TestData.load td.save = some td := by
  unfold TestData.load TestData.save
  simp only
  rw [loadMotors_save td.motors hids hnd [] (by intro e _; simp [lookupMotor])]
  rfl

/-- Witness for `save_load_round_trip` on a concrete two-motor log with a
negative id and a fractional value. -/
theorem save_load_round_trip_witness :
    (exampleRoundTripLog.motors.map (·.1)).Nodup ∧
    (∀ e ∈ exampleRoundTripLog.motors, e.2.motor_id = e.1) ∧
    TestData.load exampleRoundTripLog.save = some exampleRoundTripLog :=
  ⟨by decide, by decide,
    save_load_round_trip exampleRoundTripLog (by decide) (by decide)⟩

/-! The triangle waveform. -/

theorem pyMod_div (t f : ℚ) (hf : f ≠ 0) :
    pyMod t (1 / f) / (1 / f) = Int.fract (t * f) := by
  unfold pyMod Int.fract
  have hdiv : t / (1 / f) = t * f := by field_simp
  rw [hdiv]
  field_simp

/-- `triangleTarget` for a nonzero frequency, written through the phase
`Int.fract (t·f)`. -/
theorem triangleTarget_eq (A f : ℚ) (hf : f ≠ 0) (sv : Bool) (t : ℚ) :
    triangleTarget A f sv t =
      (if Int.fract (t * f) < 1/4 then
        some ((Int.fract (t * f) * 4) * A, if sv then some (4 * A * f) else none)
      else if Int.fract (t * f) < 1/2 then
        some ((1/2 - Int.fract (t * f)) * 4 * A,
          if sv then some (-4 * A * f) else none)
      else if Int.fract (t * f) < 3/4 then
        some (((Int.fract (t * f) - 1/2) * 4) * (-A),
          if sv then some (-4 * A * f) else none)
      else
        some ((Int.fract (t * f) - 1) * 4 * A,
          if sv then some (4 * A * f) else none)) := by
  unfold triangleTarget
  rw [if_neg hf]
  simp only [pyMod_div t f hf]

/-- C5: with period `P = 1/f` and phase `φ = (t mod P)/P = fract(t·f)`, the
triangle position follows the four linear ramps `4Aφ`, `2A−4Aφ` (covering
both middle quarters), and `4Aφ−4A`, with velocity equal to the active
segment's slope, of magnitude `4Af`; the adjacent ramps agree at the phase
boundaries `1/4`, `3/4` and at the period wrap, and the target is periodic
with period `1/f`. -/
theorem triangle_piecewise_linear (A f : ℚ) (hA : 0 ≤ A) (hf : 0 < f) (t : ℚ) :
    ∃ pos vel : ℚ,
      triangleTarget A f true t = some (pos, some vel) ∧
      triangleTarget A f false t = some (pos, none) ∧
      (vel = 4 * A * f ∨ vel = -(4 * A * f)) ∧ |vel| = 4 * A * f ∧
      (Int.fract (t * f) < 1/4 →
        pos = 4 * A * Int.fract (t * f) ∧ vel = 4 * A * f) ∧
      (1/4 ≤ Int.fract (t * f) → Int.fract (t * f) < 1/2 →
        pos = 2 * A - 4 * A * Int.fract (t * f) ∧ vel = -(4 * A * f)) ∧
      (1/2 ≤ Int.fract (t * f) → Int.fract (t * f) < 3/4 →
        pos = 2 * A - 4 * A * Int.fract (t * f) ∧ vel = -(4 * A * f)) ∧
      (3/4 ≤ Int.fract (t * f) →
        pos = 4 * A * Int.fract (t * f) - 4 * A ∧ vel = 4 * A * f) ∧
      triangleTarget A f true (t + 1 / f) = triangleTarget A f true t ∧
      (4 * A * (1/4 : ℚ) = A ∧ 2 * A - 4 * A * (1/4 : ℚ) = A ∧
        2 * A - 4 * A * (3/4 : ℚ) = -A ∧ 4 * A * (3/4 : ℚ) - 4 * A = -A ∧
        4 * A * (1 : ℚ) - 4 * A = 4 * A * (0 : ℚ)) := by
  have hfne : f ≠ 0 := ne_of_gt hf
  have hper : Int.fract ((t + 1 / f) * f) = Int.fract (t * f) := by
    have harith : (t + 1 / f) * f = t * f + 1 := by field_simp
    rw [harith, Int.fract_add_one]
  have hvnn : (0 : ℚ) ≤ 4 * A * f := by positivity
  rw [triangleTarget_eq A f hfne true t, triangleTarget_eq A f hfne false t,
    triangleTarget_eq A f hfne true (t + 1 / f), hper]
  have habs : |(-4 : ℚ) * A * f| = 4 * A * f := by
    rw [show (-4 : ℚ) * A * f = -(4 * A * f) by ring, abs_neg, abs_of_nonneg hvnn]
  by_cases hc1 : Int.fract (t * f) < 1/4
  · simp only [if_pos hc1]
    refine ⟨Int.fract (t * f) * 4 * A, 4 * A * f, rfl, rfl, Or.inl rfl,
      abs_of_nonneg hvnn, fun _ => ⟨by ring, rfl⟩,
      fun h14 _ => absurd hc1 (not_lt.mpr h14),
      fun h12 _ => absurd hc1 (not_lt.mpr (by linarith)),
      fun h34 => absurd hc1 (not_lt.mpr (by linarith)),
      trivial, by ring, by ring, by ring, by ring, by ring⟩
  · simp only [if_neg hc1]
    by_cases hc2 : Int.fract (t * f) < 1/2
    · simp only [if_pos hc2]
      refine ⟨(1/2 - Int.fract (t * f)) * 4 * A, -4 * A * f, rfl, rfl,
        Or.inr (by ring), habs,
        fun h => absurd h hc1,
        fun _ _ => ⟨by ring, by ring⟩,
        fun h12 _ => absurd hc2 (not_lt.mpr h12),
        fun h34 => absurd hc2 (not_lt.mpr (by linarith)),
        trivial, by ring, by ring, by ring, by ring, by ring⟩
    · simp only [if_neg hc2]
      by_cases hc3 : Int.fract (t * f) < 3/4
      · simp only [if_pos hc3]
        refine ⟨(Int.fract (t * f) - 1/2) * 4 * (-A), -4 * A * f, rfl, rfl,
          Or.inr (by ring), habs,
          fun h => absurd h hc1,
          fun _ h => absurd h hc2,
          fun _ _ => ⟨by ring, by ring⟩,
          fun h34 => absurd hc3 (not_lt.mpr h34),
          trivial, by ring, by ring, by ring, by ring, by ring⟩
      · simp only [if_neg hc3]
        refine ⟨(Int.fract (t * f) - 1) * 4 * A, 4 * A * f, rfl, rfl, Or.inl rfl,
          abs_of_nonneg hvnn,
          fun h => absurd h hc1,
          fun _ h => absurd h hc2,
          fun _ h => absurd h hc3,
          fun _ => ⟨by ring, rfl⟩,
          trivial, by ring, by ring, by ring, by ring, by ring⟩

/-- Witness for `triangle_piecewise_linear` at `A = 20`, `f = 1/2`,
`t = 1/10` (phase `1/20`). -/
theorem triangle_piecewise_linear_witness :
    (0 : ℚ) ≤ 20 ∧ (0 : ℚ) < 1/2 ∧
    ∃ pos vel : ℚ,
      triangleTarget 20 (1/2) true (1/10) = some (pos, some vel) ∧
      (Int.fract ((1/10 : ℚ) * (1/2)) < 1/4 →
        pos = 4 * 20 * Int.fract ((1/10 : ℚ) * (1/2)) ∧ vel = 4 * 20 * (1/2)) := by
  refine ⟨by norm_num, by norm_num, ?_⟩
  obtain ⟨pos, vel, h1, _, _, _, h5, _⟩ :=
    triangle_piecewise_linear 20 (1/2) (by norm_num) (by norm_num) (1/10)
  exact ⟨pos, vel, h1, h5⟩

/-- C10: for `A ≥ 0` and `f > 0` the triangle position always lies in
`[-A, A]`, reaching exactly `A` at phase `1/4` and exactly `-A` at phase
`3/4`. -/
theorem triangle_amplitude_bound (A f : ℚ) (hA : 0 ≤ A) (hf : 0 < f)
    (sv : Bool) (t : ℚ) :
    ∃ (pos : ℚ) (velOpt : Option ℚ),
      triangleTarget A f sv t = some (pos, velOpt) ∧
      -A ≤ pos ∧ pos ≤ A ∧
      (Int.fract (t * f) = 1/4 → pos = A) ∧
      (Int.fract (t * f) = 3/4 → pos = -A) := by
  have hfne : f ≠ 0 := ne_of_gt hf
  have h0 : 0 ≤ Int.fract (t * f) := Int.fract_nonneg _
  have h1 : Int.fract (t * f) < 1 := Int.fract_lt_one _
  rw [triangleTarget_eq A f hfne sv t]
  by_cases hc1 : Int.fract (t * f) < 1/4
  · simp only [if_pos hc1]
    exact ⟨_, _, rfl, by nlinarith, by nlinarith,
      fun h => absurd hc1 (by rw [h]; norm_num),
      fun h => absurd hc1 (by rw [h]; norm_num)⟩
  · simp only [if_neg hc1]
    by_cases hc2 : Int.fract (t * f) < 1/2
    · simp only [if_pos hc2]
      exact ⟨_, _, rfl, by nlinarith, by nlinarith,
        fun h => by rw [h]; ring_nf,
        fun h => by rw [h] at hc2; norm_num at hc2⟩
    · simp only [if_neg hc2]
      by_cases hc3 : Int.fract (t * f) < 3/4
      · simp only [if_pos hc3]
        exact ⟨_, _, rfl, by nlinarith, by nlinarith,
          fun h => by rw [h] at hc2; norm_num at hc2,
          fun h => by rw [h] at hc3; norm_num at hc3⟩
      · simp only [if_neg hc3]
        exact ⟨_, _, rfl, by nlinarith, by nlinarith,
          fun h => by rw [h] at hc2; norm_num at hc2,
          fun h => by rw [h]; ring_nf⟩

/-- Witness for `triangle_amplitude_bound` at `A = 20`, `f = 1/2`,
`t = 1/2` (phase `1/4`): position exactly `A`. -/
theorem triangle_amplitude_bound_witness :
    (0 : ℚ) ≤ 20 ∧ (0 : ℚ) < 1/2 ∧
    ∃ (pos : ℚ) (velOpt : Option ℚ),
      triangleTarget 20 (1/2) false (1/2) = some (pos, velOpt) ∧
      -20 ≤ pos ∧ pos ≤ 20 := by
  refine ⟨by norm_num, by norm_num, ?_⟩
  obtain ⟨pos, velOpt, h1, h2, h3, _, _⟩ :=
    triangle_amplitude_bound 20 (1/2) (by norm_num) (by norm_num) false (1/2)
  exact ⟨pos, velOpt, h1, h2, h3⟩

/-! The piecewise trajectory. -/

theorem pyTrunc_eq_floor (x : ℚ) (hx : 0 ≤ x) : pyTrunc x = ⌊x⌋ := if_pos hx

theorem pyIndex_nonneg (l : List ℚ) (i : Int) (h0 : 0 ≤ i) (hlt : i.toNat < l.length) :
    pyIndex l i = some (l.getD i.toNat 0) := by
  unfold pyIndex
  rw [if_pos h0, List.getElem?_eq_getElem hlt, List.getD_eq_getElem?_getD,
    List.getElem?_eq_getElem hlt, Option.getD_some]

theorem piecewiseTarget_eq_spec (positions : List ℚ) (D : ℚ) (sv : Bool) (t : ℚ)
    (hN : 2 ≤ positions.length) (hD : 0 < D) (ht0 : 0 ≤ t) (htD : t < D) :
    piecewiseTimePerPosition positions D =
      some (D / ((positions.length : ℚ) - 1)) ∧
    piecewiseTarget positions D sv t =
      some ((piecewiseSpec positions D t).1,
        if sv then some (piecewiseSpec positions D t).2 else none) := by
  have hcast : ((((positions.length : Int) - 1 : Int)) : ℚ) = (positions.length : ℚ) - 1 := by
    push_cast; ring
  have h2 : (2 : ℚ) ≤ (positions.length : ℚ) := by exact_mod_cast hN
  have hpos : (0 : ℚ) < (positions.length : ℚ) - 1 := by linarith
  have htpp_eq : piecewiseTimePerPosition positions D =
      some (D / ((positions.length : ℚ) - 1)) := by
    unfold piecewiseTimePerPosition
    rw [hcast, if_neg (ne_of_gt hpos)]
  refine ⟨htpp_eq, ?_⟩
  have htpp_pos : 0 < D / ((positions.length : ℚ) - 1) := div_pos hD hpos
  set tpp := D / ((positions.length : ℚ) - 1) with htpp_def
  have hdivnn : 0 ≤ t / tpp := div_nonneg ht0 htpp_pos.le
  have hK0 : 0 ≤ ⌊t / tpp⌋ := Int.floor_nonneg.mpr hdivnn
  have hKlt : ⌊t / tpp⌋ < (positions.length : Int) - 1 := by
    rw [Int.floor_lt]
    have hDeq : D = tpp * ((positions.length : ℚ) - 1) := by
      rw [htpp_def]; field_simp
    rw [div_lt_iff₀ htpp_pos]
    push_cast
    calc t < D := htD
    _ = ((positions.length : ℚ) - 1) * tpp := by rw [hDeq]; ring
  set k := (⌊t / tpp⌋).toNat with hk_def
  have hkcast : ((k : Int)) = ⌊t / tpp⌋ := Int.toNat_of_nonneg hK0
  have hkltZ : (k : Int) < (positions.length : Int) - 1 := by rw [hkcast]; exact hKlt
  have hklt : k < positions.length - 1 := by omega
  have hkn : k < positions.length := by omega
  have hk1n : k + 1 < positions.length := by omega
  have hred : piecewiseTarget positions D sv t = piecewiseStep positions tpp sv t := by
    unfold piecewiseTarget
    rw [htpp_eq]
  rw [hred]
  unfold piecewiseStep
  rw [if_neg (ne_of_gt htpp_pos), pyTrunc_eq_floor _ hdivnn, ← hkcast]
  simp only [ge_iff_le]
  rw [if_neg (not_le.mpr hkltZ)]
  have hidx1 : pyIndex positions (k : Int) = some (positions.getD k 0) := by
    have := pyIndex_nonneg positions (k : Int) (by positivity) (by simpa using hkn)
    simpa using this
  have hidx2 : pyIndex positions ((k : Int) + 1) = some (positions.getD (k + 1) 0) := by
    have hc : ((k : Int) + 1) = ((k + 1 : Nat) : Int) := by push_cast; ring
    rw [hc]
    have := pyIndex_nonneg positions ((k + 1 : Nat) : Int) (by positivity)
      (by simpa using hk1n)
    simpa using this
  rw [hidx1, hidx2]
  unfold piecewiseSpec
  simp only [← htpp_def]
  have hmin : min (⌊t / tpp⌋).toNat (positions.length - 2) = k := by
    rw [← hk_def]
    exact min_eq_left (by omega)
  rw [hmin]
  push_cast
  rfl

theorem piecewise_example_seg1 (sv : Bool) (t : ℚ) (h0 : 0 ≤ t) (h5 : t < 5) :
    piecewiseTarget [0, 10, 0] 10 sv t = some (2 * t, if sv then some 2 else none) := by
  rw [(piecewiseTarget_eq_spec [0, 10, 0] 10 sv t (by norm_num) (by norm_num) h0
    (by linarith)).2]
  have hfl : ⌊t / 5⌋ = 0 := by
    rw [Int.floor_eq_zero_iff]
    constructor
    · positivity
    · rw [div_lt_one (by norm_num)]; linarith
  simp only [piecewiseSpec]
  norm_num [hfl, List.getD]
  ring

theorem piecewise_example_seg2 (sv : Bool) (t : ℚ) (h5 : 5 ≤ t) (h10 : t < 10) :
    piecewiseTarget [0, 10, 0] 10 sv t =
      some (2 * (10 - t), if sv then some (-2) else none) := by
  rw [(piecewiseTarget_eq_spec [0, 10, 0] 10 sv t (by norm_num) (by norm_num)
    (by linarith) h10).2]
  have hfl : ⌊t / 5⌋ = 1 := by
    rw [Int.floor_eq_iff]
    push_cast
    constructor
    · rw [le_div_iff₀ (by norm_num)]; linarith
    · rw [div_lt_iff₀ (by norm_num)]; linarith
  simp only [piecewiseSpec]
  norm_num [hfl, List.getD]
  ring

/-- C4: for `N ≥ 2` waypoints and duration `D > 0`, the segment duration is
`D/(N-1)`; for `0 ≤ t < D` the source computation agrees with the spec's
formula (`piecewiseSpec`): segment index `⌊t/segDur⌋` clamped to `N-2`,
position the linear interpolation between that segment's endpoints by the
within-segment progress, velocity the segment slope when enabled.  For
waypoints `[0, 10, 0]` with `D = 10` the position is `0, 5, 10, 5` at
`t = 0, 2.5, 5, 7.5`, equals `2(10−t)` on the whole last segment, and tends
to `0` as `t → 10⁻`. -/
theorem piecewise_trajectory_correct (positions : List ℚ) (D : ℚ) (sv : Bool) (t : ℚ)
    (hN : 2 ≤ positions.length) (hD : 0 < D) (ht0 : 0 ≤ t) (htD : t < D) :
    (piecewiseTimePerPosition positions D =
        some (D / ((positions.length : ℚ) - 1)) ∧
      piecewiseTarget positions D sv t =
        some ((piecewiseSpec positions D t).1,
          if sv then some (piecewiseSpec positions D t).2 else none)) ∧
    piecewiseTarget [0, 10, 0] 10 false 0 = some (0, none) ∧
    piecewiseTarget [0, 10, 0] 10 false (5/2) = some (5, none) ∧
    piecewiseTarget [0, 10, 0] 10 false 5 = some (10, none) ∧
    piecewiseTarget [0, 10, 0] 10 false (15/2) = some (5, none) ∧
    (∀ s : ℚ, 5 ≤ s → s < 10 →
      piecewiseTarget [0, 10, 0] 10 sv s =
        some (2 * (10 - s), if sv then some (-2) else none)) ∧
    (∀ ε : ℚ, 0 < ε → ∃ δ : ℚ, 0 < δ ∧ ∀ s, 10 - δ < s → s < 10 →
      ∀ pos o, piecewiseTarget [0, 10, 0] 10 sv s = some (pos, o) → |pos| < ε) := by
  refine ⟨piecewiseTarget_eq_spec positions D sv t hN hD ht0 htD, ?_, ?_, ?_, ?_,
    fun s h5 h10 => piecewise_example_seg2 sv s h5 h10, ?_⟩
  · rw [piecewise_example_seg1 false 0 (by norm_num) (by norm_num)]
    norm_num
  · rw [piecewise_example_seg1 false (5/2) (by norm_num) (by norm_num)]
    norm_num
  · rw [piecewise_example_seg2 false 5 (by norm_num) (by norm_num)]
    norm_num
  · rw [piecewise_example_seg2 false (15/2) (by norm_num) (by norm_num)]
    norm_num
  · intro ε hε
    refine ⟨min (ε/4) 5, lt_min (by positivity) (by norm_num), ?_⟩
    intro s hs1 hs2 pos o hpos
    have hmin1 : min (ε/4) 5 ≤ ε/4 := min_le_left _ _
    have hmin2 : min (ε/4) 5 ≤ 5 := min_le_right _ _
    have h5 : 5 ≤ s := by linarith
    rw [piecewise_example_seg2 sv s h5 hs2] at hpos
    have hp2 : ((2 * (10 - s), if sv = true then some (-2 : ℚ) else none) :
        ℚ × Option ℚ) = (pos, o) := Option.some.inj hpos
    have hposval : pos = 2 * (10 - s) := (congrArg Prod.fst hp2).symm
    rw [hposval, abs_of_nonneg (by linarith)]
    linarith

/-- Witness for `piecewise_trajectory_correct` at waypoints `[0, 10, 0]`,
duration `10`, `t = 5/2`. -/
theorem piecewise_trajectory_correct_witness :
    2 ≤ ([0, 10, 0] : List ℚ).length ∧ (0 : ℚ) < 10 ∧ (0 : ℚ) ≤ 5/2 ∧
    (5/2 : ℚ) < 10 ∧
    piecewiseTarget [0, 10, 0] 10 false (5/2) = some (5, none) :=
  ⟨by norm_num, by norm_num, by norm_num, by norm_num,
    (piecewise_trajectory_correct [0, 10, 0] 10 false (5/2)
      (by norm_num) (by norm_num) (by norm_num) (by norm_num)).2.2.1⟩

/-! The sine trajectory. -/

/-- C6: the sine target's position is `A·sin(2πf·t)`; with velocity enabled
the produced velocity is `A·2πf·cos(2πf·t)`, which is exactly the time
derivative of the position function; with velocity disabled no velocity
value is produced. -/
theorem sine_trajectory_correct (A f t : ℝ) :
    (sineTarget A f true t).1 = A * Real.sin (2 * Real.pi * f * t) ∧
    (sineTarget A f true t).2 =
      some (A * (2 * Real.pi * f) * Real.cos (2 * Real.pi * f * t)) ∧
    HasDerivAt (fun s => (sineTarget A f true s).1)
      (A * (2 * Real.pi * f) * Real.cos (2 * Real.pi * f * t)) t ∧
    (sineTarget A f false t).2 = none := by
  have h1 : HasDerivAt (fun s : ℝ => 2 * Real.pi * f * s) (2 * Real.pi * f) t := by
    simpa using (hasDerivAt_id t).const_mul (2 * Real.pi * f)
  have h4 : HasDerivAt (fun s : ℝ => A * Real.sin (2 * Real.pi * f * s))
      (A * (2 * Real.pi * f) * Real.cos (2 * Real.pi * f * t)) t := by
    have h2 := ((Real.hasDerivAt_sin (2 * Real.pi * f * t)).comp t h1).const_mul A
    convert h2 using 1
    ring
  exact ⟨rfl, rfl, h4, rfl⟩

/-! Configuration validation (C7). -/

/-- C7 fails on the code: there is no configuration-time rejection.  At
`f = 0` the sine target computes normally (position `0`, velocity `0`); the
triangle and square targets fail only at the in-loop `period = 1/f`
division; a single-waypoint piecewise test fails at the pre-loop
segment-duration division (a `ZeroDivisionError`, no `ConfigurationError`
class exists), while a two-segment one passes it. -/
theorem config_validation_counterexample :
    sineTarget 20 0 true 1 = (0, some 0) ∧
    triangleTarget 20 0 true (1/100) = none ∧
    squareTarget 5 0 true (1/100) = none ∧
    piecewiseTimePerPosition [5] 10 = none ∧
    piecewiseTimePerPosition [0, 10, 0] 10 = some 5 := by
  refine ⟨by simp [sineTarget], rfl, rfl, ?_, ?_⟩
  · norm_num [piecewiseTimePerPosition]
  · norm_num [piecewiseTimePerPosition]

/-- C7 amended: the code performs no configuration-time validation.  With
`f = 0` the triangle and square in-loop computations fail with a division
by zero (mid-loop, on the first tick), the sine target yields the constant
zero trajectory with no error at all, and the piecewise pre-loop
segment-duration computation fails exactly for a single-waypoint
trajectory. -/
theorem config_validation_amended (A : ℚ) (sv : Bool) (t : ℚ)
    (positions : List ℚ) (D : ℚ) :
    triangleTarget A 0 sv t = none ∧
    squareTarget A 0 sv t = none ∧
    (piecewiseTimePerPosition positions D = none ↔ positions.length = 1) ∧
    (∀ Ar tr : ℝ, sineTarget Ar 0 true tr = (0, some 0)) := by
  refine ⟨rfl, rfl, ?_, ?_⟩
  · unfold piecewiseTimePerPosition
    constructor
    · intro h
      by_cases hc : ((((positions.length : Int) - 1 : Int)) : ℚ) = 0
      · have h0 : ((positions.length : Int) - 1 : Int) = 0 := by exact_mod_cast hc
        omega
      · rw [if_neg hc] at h
        cases h
    · intro h
      rw [if_pos (by rw [h]; norm_num)]
  · intro Ar tr
    simp [sineTarget]

/-! Cancellation (C8). -/

/-- C8 fails on the code for the sine test: an interrupted sine run does not
yield a "no data" result — the `return` inside its `finally` block hands
back the partially collected (nonempty) data, which callers can mistake for
a finished test. -/
theorem cancellation_counterexample :
    (sineMain [1]
      [⟨0, [(1, 5, none)], [(1, 4, 0)]⟩, ⟨1/100, [(1, 5, none)], [(1, 4, 0)]⟩]
      (some 1) false).1 ≠ none ∧
    (sineMain [1]
      [⟨0, [(1, 5, none)], [(1, 4, 0)]⟩, ⟨1/100, [(1, 5, none)], [(1, 4, 0)]⟩]
      (some 1) false).1 =
      some (runTicks { send_velocity := false } [⟨0, [(1, 5, none)], [(1, 4, 0)]⟩]) ∧
    (runTicks ({ send_velocity := false } : TestData)
      [⟨0, [(1, 5, none)], [(1, 4, 0)]⟩]).time_points = [0] := by
  refine ⟨by simp [sineMain], rfl, by decide⟩

/-- C8 amended: when an operator interrupt arrives mid-run, the piecewise
(and triangle and actuator-square) tests return `None` — an explicit
"no data" result — and the final disable phase of `main` still covers every
active actuator; the sine test instead returns the data collected up to
the interrupt. -/
theorem cancellation_amended (active : List Int) (tks : List Tick) (sv : Bool)
    (k : Nat) (hk : k < tks.length) :
    (piecewiseMain active tks (some k) sv).1 = none ∧
    (piecewiseMain active tks (some k) sv).2 = active ∧
    (sineMain active tks (some k) sv).1 =
      some (runTicks { send_velocity := sv } (tks.take k)) ∧
    (sineMain active tks (some k) sv).2 = active := by
  refine ⟨?_, rfl, rfl, rfl⟩
  simp [piecewiseMain, runPiecewiseLoop, hk]

/-- Witness for `cancellation_amended`: a two-tick run interrupted during
the first tick. -/
theorem cancellation_amended_witness :
    0 < ([⟨0, [(1, 5, none)], [(1, 4, 0)]⟩, ⟨1/100, [(1, 5, none)], [(1, 4, 0)]⟩] :
      List Tick).length ∧
    (piecewiseMain [1]
      [⟨0, [(1, 5, none)], [(1, 4, 0)]⟩, ⟨1/100, [(1, 5, none)], [(1, 4, 0)]⟩]
      (some 0) false).1 = none :=
  ⟨by decide,
    (cancellation_amended [1]
      [⟨0, [(1, 5, none)], [(1, 4, 0)]⟩, ⟨1/100, [(1, 5, none)], [(1, 4, 0)]⟩]
      false 0 (by decide)).1⟩

end KosTests

